import Mathlib

/-!
Verification of the azkaban CLI core (`azkaban.py` and `azkaban/session.py`):
the option-flattening model, project archive build, file registration, and the
session request layer with its workflow-control operations.

Python dictionaries are embedded as association lists with Python's dict
semantics (`dictInsert` replaces in place, keeping first-insertion position;
iteration follows list order).  Fallible operations return sum types whose
error constructors mirror the exceptions raised by the source.
-/

namespace Azkaban

/-- First-match association-list lookup, mirroring Python `d[k]` / `k in d`. -/
def alookup (k : String) : List (String × α) → Option α
  | [] => none
  | (k', v) :: rest => if k' = k then some v else alookup k rest

/-- Keys of an association list, in insertion order. -/
def keys (l : List (String × α)) : List String := l.map Prod.fst

/-- Python dict assignment `d[k] = v`: replace the value in place when the key
is present, append otherwise. -/
def dictInsert (k : String) (v : α) : List (String × α) → List (String × α)
  | [] => [(k, v)]
  | (k', v') :: rest => if k' = k then (k, v) :: rest else (k', v') :: dictInsert k v rest

/-- Python `dict(items)`: build a dict from a pair list (later duplicates win). -/
def dictFromList (l : List (String × α)) : List (String × α) :=
  l.foldl (fun d p => dictInsert p.1 p.2 d) []

/-- Python `d.update(o)`: assign every binding of `o` into `d`, in order. -/
def dictUpdate (d o : List (String × α)) : List (String × α) :=
  o.foldl (fun acc p => dictInsert p.1 p.2 acc) d

/-- A (possibly nested) Python option dictionary, written out as its ordered
entry sequence: each entry carries a key and either a scalar value (kept as
its textual representation, matching `%s` formatting in `Job.generate`) or a
nested dictionary. -/
inductive JObj where
  | nil
  | leafCons (key s : String) (rest : JObj)
  | dictCons (key : String) (sub : JObj) (rest : JObj)

/-- The item traversal of `flatten._flatten` (azkaban.py): walk the entries in
order, joining nested keys to the running prefix with `sep`; nested
dictionaries recurse, non-dictionary values are leaves. -/
def flattenItems (sep pfx : String) : JObj → List (String × String)
  | .nil => []
  | .leafCons key s rest =>
      ((if pfx = "" then key else pfx ++ sep ++ key), s) :: flattenItems sep pfx rest
  | .dictCons key sub rest =>
      flattenItems sep (if pfx = "" then key else pfx ++ sep ++ key) sub
        ++ flattenItems sep pfx rest

/-- Model of `flatten(dct, sep='.')` from azkaban.py: flatten a nested dictionary into a
dict keyed by the joined paths. -/
def flatten (d : JObj) : List (String × String) :=
  dictFromList (flattenItems "." "" d)

/-- Model of `Job.options`: start from an empty dict and `update` with the flattening of
each option dictionary in *reversed* order, so earlier dictionaries win. -/
def jobOptions (opts : List JObj) : List (String × String) :=
  opts.reverse.foldl (fun acc o => dictUpdate acc (flatten o)) []

/-- The spec's precedence rule, stated directly: the value of a flattened key is
taken from the earliest option dictionary whose flattening binds it. -/
def earliestBinding (k : String) : List JObj → Option String
  | [] => none
  | o :: rest =>
      match alookup k (flatten o) with
      | some v => some v
      | none => earliestBinding k rest

/-- Python string comparison: lexicographic on the code-point sequences
(`a <= b` for strings). -/
def charListLe : List Char → List Char → Bool
  | [], _ => true
  | _ :: _, [] => false
  | c :: cs, d :: ds => if c < d then true else if d < c then false else charListLe cs ds

/-- Python tuple comparison `(k1, v1) <= (k2, v2)` on string pairs, as used by
`sorted(self.options.items())` in `Job.generate`: the keys decide unless they
are equal, in which case the values do. -/
def pairLeB (a b : String × String) : Bool :=
  if a.1 = b.1 then charListLe a.2.data b.2.data else charListLe a.1.data b.1.data

/-- Relation form of `pairLeB`, for `List.insertionSort`. -/
def pairLe (a b : String × String) : Prop := pairLeB a b = true

instance pairLe.decRel : DecidableRel pairLe := fun a b =>
  inferInstanceAs (Decidable (pairLeB a b = true))

/-- `Job.generate`: serialize the flattened options as sorted `key=value`
lines, each terminated by a single LF. -/
def generateText (opts : List (String × String)) : String :=
  String.join ((List.insertionSort pairLe opts).map fun p => p.1 ++ "=" ++ p.2 ++ "\n")

/-- Model of `Project.build`, restricted to what reaches the archive: one member
`<name>.job` holding the serialized options of each job, followed by the
registered auxiliary files (whose raw contents are carried opaquely). -/
def projectBuildMembers (jobs : List (String × List JObj))
    (files : List (String × String)) : List (String × String) :=
  jobs.map (fun p => (p.1 ++ ".job", generateText (jobOptions p.2))) ++ files

/-- POSIX `os.path.isabs`: the path starts with a slash. -/
def isabs (p : String) : Bool :=
  match p.data with
  | [] => false
  | c :: _ => c == '/'

/-- Outcome of `Project.add_file`; the error constructors mirror the three
`AzkabanError` messages raised by the source. -/
inductive AddOutcome where
  | ok
  | relativePathErr
  | inconsistentDuplicateErr
  | fileMissingErr
  deriving DecidableEq

/-- Model of `Project.add_file`: reject relative paths; an already-registered path is a
no-op when the archive path matches and a conflict otherwise (existence is not
re-checked); a new path is checked for existence (`fs` is the file system,
read at call time) and then registered.  Returns the outcome together with the
file registry afterwards. -/
def add_file (fs : String → Bool) (files : List (String × Option String))
    (path : String) (archivePath : Option String) :
    AddOutcome × List (String × Option String) :=
  if ¬ isabs path then (.relativePathErr, files)
  else
    match alookup path files with
    | some existing =>
        if existing ≠ archivePath then (.inconsistentDuplicateErr, files)
        else (.ok, files)
    | none =>
        if ¬ fs path then (.fileMissingErr, files)
        else (.ok, dictInsert path archivePath files)

/-- Outcome of `Project.upload` as the Python interpreter would deliver it:
normal return, an `AzkabanError` with a message, a `KeyError` on a missing
dict key, or a `NameError` on an unbound variable. -/
inductive UploadOutcome where
  | ok
  | azkabanError (msg : String)
  | keyError (key : String)
  | nameError (name : String)
  deriving DecidableEq

/-- Model of `Project.upload` (azkaban.py): when no session id is given, log in first
(`res` is the login response; an `error` field there raises, otherwise
`session.id` is read); then post the upload and, if the upload response
carries an `error` field, execute `raise AzkabanError(res['error'])` — which
reads the *login* response `res`, a variable that is unbound when a session id
was supplied. -/
def projectUpload (sessionId : Option String)
    (loginRes uploadRes : List (String × String)) : UploadOutcome :=
  match sessionId with
  | none =>
      match alookup "error" loginRes with
      | some e => .azkabanError e
      | none =>
          match alookup "session.id" loginRes with
          | none => .keyError "session.id"
          | some _ =>
              if (alookup "error" uploadRes).isSome then
                match alookup "error" loginRes with
                | some e => .azkabanError e
                | none => .keyError "error"
              else .ok
  | some _ =>
      if (alookup "error" uploadRes).isSome then .nameError "res"
      else .ok

/-- Boolean infix test on character lists: does `pat` occur contiguously? -/
def listContainsPat (pat : List Char) : List Char → Bool
  | [] => pat.isEmpty
  | c :: rest => pat.isPrefixOf (c :: rest) || listContainsPat pat rest

/-- Python `pat in hay` on strings: contiguous substring containment. -/
def strContainsSub (hay pat : String) : Bool := listContainsPat pat.data hay.data

/-- The exact confirmation substring `Session.delete_project` searches for. -/
def deleteSuccessMsg (name : String) : String :=
  "Project '" ++ name ++ "' was successfully deleted"

/-- Outcome of `Session.delete_project`. -/
inductive DeleteOutcome where
  | ok
  | deleteFailedErr
  deriving DecidableEq

/-- Model of `Session.delete_project`: succeed exactly when the response text contains
the confirmation substring; otherwise raise `AzkabanError` (no error field of
the body is ever consulted). -/
def delete_project (name resText : String) : DeleteOutcome :=
  if strContainsSub resText (deleteSuccessMsg name) then .ok else .deleteFailedErr

/-- The expired-session sentinel `Session._request` searches response bodies
for. -/
def loginMarker : String := "<!-- /.login -->"

/-- Environment of `Session._request`: the server's response body for a
request carrying a given session token, and the token yielded by the i-th
`_refresh` call. -/
structure ReqEnv where
  request : String → String
  refreshedToken : Nat → String

/-- Test `res is None or '<!-- /.login -->' in res.text`: the request is treated as
an authentication failure when no token was available (no request is sent) or
when the body contains the login-page marker. -/
def invalidResponse : Option String → Bool
  | none => true
  | some body => strContainsSub body loginMarker

/-- Result of `Session._request`, carrying how many `_refresh` calls ran. -/
inductive ReqResult where
  | ok (body : String) (refreshes : Nat)
  | exhausted (refreshes : Nat)
  deriving DecidableEq

/-- Number of refreshes performed. -/
def ReqResult.refreshCount : ReqResult → Nat
  | .ok _ r => r
  | .exhausted r => r

/-- The `while True` loop of `Session._request`: send with the current token
(or skip sending when there is none); on an invalid response refresh and retry
while the attempt budget lasts, else raise; on a valid response return it. -/
def sessionRequest (env : ReqEnv) : Option String → Nat → Nat → ReqResult
  | id, 0, refreshes =>
      if invalidResponse (id.map env.request) then .exhausted refreshes
      else .ok ((id.map env.request).getD "") refreshes
  | id, a + 1, refreshes =>
      if invalidResponse (id.map env.request) then
        sessionRequest env (some (env.refreshedToken refreshes)) a (refreshes + 1)
      else .ok ((id.map env.request).getD "") refreshes

/-- A sample server: only the token "good" is accepted, every other request
comes back as the login page, and every refresh hands out "good". -/
def sampleReqEnv : ReqEnv where
  request tok := if tok = "good" then "payload" else loginMarker
  refreshedToken _ := "good"

/-- Outcome of `Session.run_workflow`: a submission with its disabled-node
set, a validation failure naming the missing jobs, or a failure propagated
from `get_workflow_info`. -/
inductive RunOutcome where
  | submit (disabled : Finset String)
  | missingJobs (missing : Finset String)
  | infoFailed (e : String)
  deriving DecidableEq

/-- Model of `Session.run_workflow`: with no jobs requested, submit with nothing
disabled (the flow info is never fetched); otherwise fetch the node-id set
first, fail naming `requested − all` when non-empty, else submit
`all − requested` as the disabled set. -/
def run_workflow (info : Except String (Finset String)) (jobs : List String) :
    RunOutcome :=
  if jobs.isEmpty then .submit ∅
  else
    match info with
    | .error e => .infoFailed e
    | .ok allNames =>
        let runNames := jobs.toFinset
        let missingNames := runNames \ allNames
        if missingNames = ∅ then .submit (allNames \ runNames)
        else .missingJobs missingNames

/-- A raw HTTP response body: either it parses as JSON (to a flat field dict)
or it does not. -/
inductive RawResponse where
  | parsable (fields : List (String × String))
  | unparsable (text : String)
  deriving DecidableEq

/-- A Python exception, as relevant here. -/
inductive PyExc where
  | valueError
  | azkabanError (msg : String)
  | otherExc (name : String)
  deriving DecidableEq

/-- Modelled from the spec: `extract_json` lives in `azkaban.util`, which is
not under `src/`.  Per the spec, it parses the response body as JSON — a body
that fails to parse raises `ValueError` — and raises an error carrying the
server-reported message when the parsed body contains an `error` field. -/
def extract_json : RawResponse → Except PyExc (List (String × String))
  | .unparsable _ => .error .valueError
  | .parsable fields =>
      match alookup "error" fields with
      | some m => .error (.azkabanError m)
      | none => .ok fields

/-- Model of `Session.get_workflow_info`: the request itself runs outside the `try`, so
its exceptions propagate; only a `ValueError` from `extract_json` is caught
and turned into the flow-not-found `AzkabanError`; every other outcome of
`extract_json` passes through. -/
def get_workflow_info (flow : String) (req : Except PyExc RawResponse) :
    Except PyExc (List (String × String)) :=
  match req with
  | .error e => .error e
  | .ok raw =>
      match extract_json raw with
      | .error .valueError =>
          .error (.azkabanError ("Flow '" ++ flow ++ "' not found."))
      | .error e => .error e
      | .ok v => .ok v

theorem charListLe_total (a b : List Char) : charListLe a b = true ∨ charListLe b a = true := by
  induction a generalizing b with
  | nil => exact Or.inl rfl
  | cons c cs ih =>
    cases b with
    | nil => exact Or.inr rfl
    | cons d ds =>
      by_cases h1 : c < d
      · exact Or.inl (by simp [charListLe, h1])
      · by_cases h2 : d < c
        · exact Or.inr (by simp [charListLe, h2])
        · have he : c = d := le_antisymm (not_lt.mp h2) (not_lt.mp h1)
          rcases ih ds with h | h
          · exact Or.inl (by simp [charListLe, h1, h2, h])
          · exact Or.inr (by subst he; simp [charListLe, h1, h2, h])

theorem charListLe_trans : ∀ {a b c : List Char},
    charListLe a b = true → charListLe b c = true → charListLe a c = true := by
  intro a
  induction a with
  | nil => intro b c _ _; rfl
  | cons x xs ih =>
    intro b c hab hbc
    cases b with
    | nil => simp [charListLe] at hab
    | cons y ys =>
      cases c with
      | nil => simp [charListLe] at hbc
      | cons z zs =>
        simp only [charListLe] at hab hbc ⊢
        by_cases hxy : x < y
        · by_cases hyz : y < z
          · simp [lt_trans hxy hyz]
          · by_cases hzy : z < y
            · simp [hyz, hzy] at hbc
            · have : y = z := le_antisymm (not_lt.mp hzy) (not_lt.mp hyz)
              simp [this ▸ hxy]
        · by_cases hyx : y < x
          · simp [hxy, hyx] at hab
          · have hxy' : x = y := le_antisymm (not_lt.mp hyx) (not_lt.mp hxy)
            simp [hxy, hyx] at hab
            by_cases hyz : y < z
            · simp [hxy' ▸ hyz]
            · by_cases hzy : z < y
              · simp [hyz, hzy] at hbc
              · have hyz' : y = z := le_antisymm (not_lt.mp hzy) (not_lt.mp hyz)
                simp [hyz, hzy] at hbc
                have hxz : ¬ x < z := by rw [hxy', hyz']; exact lt_irrefl z
                have hzx : ¬ z < x := by rw [hxy', hyz']; exact lt_irrefl z
                simp [hxz, hzx]
                exact ih hab hbc

theorem charListLe_antisymm : ∀ {a b : List Char},
    charListLe a b = true → charListLe b a = true → a = b := by
  intro a
  induction a with
  | nil => intro b _ hba; cases b with
    | nil => rfl
    | cons d ds => simp [charListLe] at hba
  | cons c cs ih =>
    intro b hab hba
    cases b with
    | nil => simp [charListLe] at hab
    | cons d ds =>
      simp only [charListLe] at hab hba
      by_cases h1 : c < d
      · simp [h1, asymm h1] at hba
      · by_cases h2 : d < c
        · simp [h1, h2] at hab
        · have he : c = d := le_antisymm (not_lt.mp h2) (not_lt.mp h1)
          simp [h1, h2] at hab hba
          exact he ▸ congrArg (c :: ·) (ih hab hba)

theorem pairLe_isTotal : IsTotal (String × String) pairLe := by
  constructor
  intro a b
  unfold pairLe pairLeB
  by_cases h : a.1 = b.1
  · simp only [h, if_pos rfl, if_true]
    exact charListLe_total _ _
  · rw [if_neg h, if_neg (Ne.symm h)]
    exact charListLe_total _ _

theorem pairLe_isTrans : IsTrans (String × String) pairLe := by
  constructor
  intro a b c hab hbc
  unfold pairLe pairLeB at hab hbc ⊢
  by_cases h1 : a.1 = b.1
  · by_cases h2 : b.1 = c.1
    · have h3 : a.1 = c.1 := h1.trans h2
      rw [if_pos h1] at hab
      rw [if_pos h2] at hbc
      rw [if_pos h3]
      exact charListLe_trans hab hbc
    · have h3 : ¬ a.1 = c.1 := fun hac => h2 (h1.symm.trans hac)
      rw [if_pos h1] at hab
      rw [if_neg h2] at hbc
      rw [if_neg h3, h1]
      exact hbc
  · by_cases h2 : b.1 = c.1
    · have h3 : ¬ a.1 = c.1 := fun hac => h1 (hac.trans h2.symm)
      rw [if_neg h1] at hab
      rw [if_neg h3, ← h2]
      exact hab
    · rw [if_neg h1] at hab
      rw [if_neg h2] at hbc
      by_cases h3 : a.1 = c.1
      · exfalso
        apply h1
        have hba : charListLe b.1.data a.1.data = true := by rw [h3]; exact hbc
        exact String.ext (charListLe_antisymm hab hba)
      · rw [if_neg h3]
        exact charListLe_trans hab hbc

theorem alookup_eq_none {k : String} : ∀ {l : List (String × α)}, k ∉ keys l → alookup k l = none := by
  intro l
  induction l with
  | nil => intro _; rfl
  | cons p rest ih =>
    intro h
    have h1 : ¬ p.1 = k := fun he => h (by simp [keys, he])
    have h2 : k ∉ keys rest := fun hm => h (by simp [keys] at hm ⊢; exact Or.inr hm)
    simpa [alookup, h1] using ih h2

theorem alookup_dictInsert (k k' : String) (v : α) :
    ∀ d, alookup k (dictInsert k' v d) = if k' = k then some v else alookup k d := by
  intro d
  induction d with
  | nil => simp [dictInsert, alookup]
  | cons p rest ih =>
    obtain ⟨k1, v1⟩ := p
    by_cases h : k1 = k'
    · subst h
      simp only [dictInsert, if_pos rfl, alookup]
      split <;> rfl
    · simp only [dictInsert, if_neg h, alookup, ih]
      by_cases hk : k1 = k
      · have : ¬ k' = k := fun he => h (hk.trans he.symm)
        simp [hk, this]
      · simp [hk]

theorem mem_keys_dictInsert {k k' : String} {v : α} :
    ∀ {d}, k ∈ keys (dictInsert k' v d) ↔ k = k' ∨ k ∈ keys d := by
  intro d
  induction d with
  | nil => simp [dictInsert, keys]
  | cons p rest ih =>
    by_cases h : p.1 = k'
    · simp only [dictInsert, if_pos h, keys, List.map_cons, List.mem_cons]
      constructor
      · rintro (he | hm)
        · exact Or.inl he
        · exact Or.inr (Or.inr hm)
      · rintro (he | hm | hm)
        · exact Or.inl he
        · exact Or.inl (by rw [hm, h])
        · exact Or.inr hm
    · simp only [dictInsert, if_neg h, keys, List.map_cons, List.mem_cons] at ih ⊢
      rw [ih]
      tauto

theorem nodup_keys_dictInsert (k : String) (v : α) :
    ∀ {d}, (keys d).Nodup → (keys (dictInsert k v d)).Nodup := by
  intro d
  induction d with
  | nil => intro _; simp [dictInsert, keys]
  | cons p rest ih =>
    intro h
    simp only [keys, List.map_cons, List.nodup_cons] at h
    by_cases hp : p.1 = k
    · simp only [dictInsert, if_pos hp, keys, List.map_cons, List.nodup_cons]
      exact ⟨hp ▸ h.1, h.2⟩
    · simp only [dictInsert, if_neg hp, keys, List.map_cons, List.nodup_cons]
      refine ⟨fun hm => ?_, ih h.2⟩
      rcases (mem_keys_dictInsert).mp hm with he | hm2
      · exact hp he
      · exact h.1 hm2

theorem nodup_keys_dictUpdate (o : List (String × α)) :
    ∀ d, (keys d).Nodup → (keys (dictUpdate d o)).Nodup := by
  induction o with
  | nil => intro d h; exact h
  | cons p rest ih =>
    intro d h
    exact ih (dictInsert p.1 p.2 d) (nodup_keys_dictInsert p.1 p.2 h)

theorem nodup_keys_dictFromList (l : List (String × α)) : (keys (dictFromList l)).Nodup :=
  nodup_keys_dictUpdate l [] (by simp [keys])

theorem alookup_dictUpdate (k : String) (o : List (String × α)) (ho : (keys o).Nodup) :
    ∀ d, alookup k (dictUpdate d o) =
      match alookup k o with
      | some v => some v
      | none => alookup k d := by
  induction o with
  | nil => intro d; simp [dictUpdate, alookup]
  | cons p rest ih =>
    intro d
    simp only [keys, List.map_cons, List.nodup_cons] at ho
    have step : dictUpdate d (p :: rest) = dictUpdate (dictInsert p.1 p.2 d) rest := rfl
    rw [step, ih ho.2]
    by_cases hk : p.1 = k
    · have hrest : alookup k rest = none := alookup_eq_none (hk ▸ ho.1)
      simp [alookup, hk, hrest, alookup_dictInsert]
    · simp only [alookup, if_neg hk]
      cases h : alookup k rest with
      | some v => rfl
      | none => simp [alookup_dictInsert, hk]

theorem nodup_keys_flatten (o : JObj) : (keys (flatten o)).Nodup :=
  nodup_keys_dictFromList _

theorem jobOptions_cons (o : JObj) (rest : List JObj) :
    jobOptions (o :: rest) = dictUpdate (jobOptions rest) (flatten o) := by
  unfold jobOptions
  rw [List.reverse_cons, List.foldl_append]
  rfl

theorem jobOptions_lookup (k : String) : ∀ opts, alookup k (jobOptions opts) = earliestBinding k opts := by
  intro opts
  induction opts with
  | nil => rfl
  | cons o rest ih =>
    rw [jobOptions_cons, alookup_dictUpdate k (flatten o) (nodup_keys_flatten o), ih]
    cases h : alookup k (flatten o) with
    | some v => simp [earliestBinding, h]
    | none => simp [earliestBinding, h]

theorem sessionRequest_refreshCount_le (env : ReqEnv) :
    ∀ (a : Nat) (id : Option String) (r : Nat),
      (sessionRequest env id a r).refreshCount ≤ r + a := by
  intro a
  induction a with
  | zero =>
    intro id r
    unfold sessionRequest
    split <;> simp [ReqResult.refreshCount]
  | succ n ih =>
    intro id r
    unfold sessionRequest
    split
    · calc (sessionRequest env (some (env.refreshedToken r)) n (r + 1)).refreshCount
          ≤ (r + 1) + n := ih _ _
        _ ≤ r + (n + 1) := by omega
    · simp [ReqResult.refreshCount]

/-- C1: `Session._request` performs at most `attempts` refreshes; with an
invalid or absent token and `attempts = 1`, a succeeding retry returns its
response after exactly one refresh; with `attempts = 0` it fails at once with
the session-exhausted error and no refresh. -/
theorem session_request_refresh_budget :
    (∀ (env : ReqEnv) (id : Option String) (attempts : Nat),
      (sessionRequest env id attempts 0).refreshCount ≤ attempts)
    ∧ (∀ (env : ReqEnv) (id : Option String),
        invalidResponse (id.map env.request) = true →
        sessionRequest env id 0 0 = .exhausted 0)
    ∧ (∀ (env : ReqEnv) (id : Option String),
        invalidResponse (id.map env.request) = true →
        invalidResponse (some (env.request (env.refreshedToken 0))) = false →
        sessionRequest env id 1 0 = .ok (env.request (env.refreshedToken 0)) 1) := by
  refine ⟨fun env id attempts => ?_, fun env id h => ?_, fun env id h h2 => ?_⟩
  · simpa using sessionRequest_refreshCount_le env attempts id 0
  · simp [sessionRequest, h]
  · simp [sessionRequest, h, h2]

theorem session_request_refresh_budget_witness :
    sessionRequest sampleReqEnv none 0 0 = .exhausted 0
    ∧ sessionRequest sampleReqEnv none 1 0 = .ok "payload" 1 := by
  constructor
  · exact session_request_refresh_budget.2.1 sampleReqEnv none rfl
  · rw [session_request_refresh_budget.2.2 sampleReqEnv none rfl (by decide)]
    decide

/-- C2: `Job.options` flattens the option dictionaries (joining nested keys
with the separator) into one mapping in which the earliest dictionary binding
a key wins; in particular `[{a:1}, {a:2}]` maps `a` to `1`. -/
theorem job_options_earliest_wins :
    (∀ (opts : List JObj) (k : String),
      alookup k (jobOptions opts) = earliestBinding k opts)
    ∧ alookup "a" (jobOptions [.leafCons "a" "1" .nil, .leafCons "a" "2" .nil]) = some "1"
    ∧ flatten (.dictCons "a" (.leafCons "b" "1" .nil) .nil) = [("a.b", "1")] :=
  ⟨fun opts k => jobOptions_lookup k opts, by decide, by decide⟩

/-- C3: `run_workflow` with a non-empty jobs subset validates the requested
names against the fetched node-id set, failing with exactly the missing names
and submitting nothing when some are unknown, and otherwise submitting
`all − requested` as the disabled set; an empty jobs list disables nothing. -/
theorem run_workflow_disabled_sets :
    (∀ (nodes : Finset String) (jobs : List String), jobs ≠ [] →
      (jobs.toFinset \ nodes ≠ ∅ →
        run_workflow (.ok nodes) jobs = .missingJobs (jobs.toFinset \ nodes))
      ∧ (jobs.toFinset \ nodes = ∅ →
        run_workflow (.ok nodes) jobs = .submit (nodes \ jobs.toFinset)))
    ∧ run_workflow (.ok {"a", "b", "c"}) ["a", "b"] = .submit {"c"}
    ∧ run_workflow (.ok {"a", "b", "c"}) ["a", "z"] = .missingJobs {"z"}
    ∧ (∀ info : Except String (Finset String), run_workflow info [] = .submit ∅) := by
  refine ⟨fun nodes jobs hne => ⟨fun hm => ?_, fun hm => ?_⟩, by decide, by decide,
    fun info => rfl⟩
  · cases jobs with
    | nil => exact absurd rfl hne
    | cons j js =>
      have hrw : run_workflow (.ok nodes) (j :: js)
          = if (j :: js).toFinset \ nodes = ∅
            then RunOutcome.submit (nodes \ (j :: js).toFinset)
            else RunOutcome.missingJobs ((j :: js).toFinset \ nodes) := rfl
      rw [hrw, if_neg hm]
  · cases jobs with
    | nil => exact absurd rfl hne
    | cons j js =>
      have hrw : run_workflow (.ok nodes) (j :: js)
          = if (j :: js).toFinset \ nodes = ∅
            then RunOutcome.submit (nodes \ (j :: js).toFinset)
            else RunOutcome.missingJobs ((j :: js).toFinset \ nodes) := rfl
      rw [hrw, if_pos hm]

theorem run_workflow_disabled_sets_witness :
    run_workflow (.ok {"a"}) ["a"] = .submit ({"a"} \ (["a"].toFinset : Finset String))
    ∧ run_workflow (.ok ∅) ["a"] = .missingJobs ((["a"].toFinset : Finset String) \ ∅) := by
  constructor
  · exact (run_workflow_disabled_sets.1 {"a"} ["a"] (by decide)).2 (by decide)
  · exact (run_workflow_disabled_sets.1 ∅ ["a"] (by decide)).1 (by decide)

/-- C4: each job serializes to one `key=value` line per flattened option,
sorted and LF-terminated; the project archive holds it under `<name>.job`, so
the sample job "foo" yields the member `foo.job` with exactly
`pig.script=/x.pig\ntype=pig\n`. -/
theorem job_file_serialization :
    projectBuildMembers [("foo", [.leafCons "type" "pig" (.leafCons "pig.script" "/x.pig" .nil)])] []
      = [("foo.job", "pig.script=/x.pig\ntype=pig\n")]
    ∧ (∀ opts : List (String × String), ∃ l : List (String × String),
        l.Perm opts ∧ l.Sorted pairLe ∧
        generateText opts = String.join (l.map fun p => p.1 ++ "=" ++ p.2 ++ "\n")) := by
  constructor
  · decide
  · intro opts
    haveI := pairLe_isTotal
    haveI := pairLe_isTrans
    exact ⟨List.insertionSort pairLe opts, List.perm_insertionSort pairLe opts,
      List.sorted_insertionSort pairLe opts, rfl⟩

/-- C5: at the failing inputs, `Project.upload` does not surface the upload
response's own error text: with a session id supplied it hits the unbound
variable `res`, and after a successful login it raises `KeyError` because the
login response has no `error` field — never `AzkabanError "boom"`. -/
theorem project_upload_wrong_error_source :
    projectUpload (some "tok") [] [("error", "boom")] = .nameError "res"
    ∧ projectUpload none [("session.id", "abc")] [("error", "boom")] = .keyError "error"
    ∧ projectUpload none [("session.id", "abc")] [("error", "boom")] ≠ .azkabanError "boom" := by
  refine ⟨by decide, by decide, by decide⟩

/-- C6: `add_file` re-registration with the identical archive path is a
no-op; a different archive path is a conflict leaving the registry unchanged;
a relative path is rejected; a new path whose file is absent is rejected. -/
theorem add_file_registration :
    (∀ (fs : String → Bool) (files : List (String × Option String)) (path : String)
        (ap : Option String), isabs path = true → alookup path files = some ap →
        add_file fs files path ap = (.ok, files))
    ∧ (∀ (fs : String → Bool) (files : List (String × Option String)) (path : String)
        (ap ex : Option String), isabs path = true → alookup path files = some ex →
        ex ≠ ap → add_file fs files path ap = (.inconsistentDuplicateErr, files))
    ∧ (∀ (fs : String → Bool) (files : List (String × Option String)) (path : String)
        (ap : Option String), isabs path = false →
        add_file fs files path ap = (.relativePathErr, files))
    ∧ (∀ (fs : String → Bool) (files : List (String × Option String)) (path : String)
        (ap : Option String), isabs path = true → alookup path files = none →
        fs path = false → add_file fs files path ap = (.fileMissingErr, files)) := by
  refine ⟨fun fs files path ap h1 h2 => ?_, fun fs files path ap ex h1 h2 h3 => ?_,
    fun fs files path ap h1 => ?_, fun fs files path ap h1 h2 h3 => ?_⟩
  · simp [add_file, h1, h2]
  · simp [add_file, h1, h2, h3]
  · simp [add_file, h1]
  · simp [add_file, h1, h2, h3]

theorem add_file_registration_witness :
    add_file (fun _ => true) [("/a/b", some "x")] "/a/b" (some "x")
      = (.ok, [("/a/b", some "x")])
    ∧ add_file (fun _ => true) [("/a/b", some "x")] "/a/b" (some "y")
      = (.inconsistentDuplicateErr, [("/a/b", some "x")])
    ∧ add_file (fun _ => true) [] "a/b" none = (.relativePathErr, [])
    ∧ add_file (fun _ => false) [] "/a/b" none = (.fileMissingErr, []) := by
  refine ⟨add_file_registration.1 _ _ _ _ rfl rfl,
    add_file_registration.2.1 _ _ _ _ _ rfl rfl (by decide),
    add_file_registration.2.2.1 _ _ _ _ rfl,
    add_file_registration.2.2.2 _ _ _ _ rfl rfl rfl⟩

/-- C7: `delete_project` succeeds exactly when the response text contains the
confirmation substring; a response without it — even one without any error
field — raises, and one containing it succeeds. -/
theorem delete_project_text_match :
    (∀ name t : String,
      delete_project name t = .ok ↔ strContainsSub t (deleteSuccessMsg name) = true)
    ∧ delete_project "foo" "no error field here" = .deleteFailedErr
    ∧ delete_project "foo" "Project 'foo' was successfully deleted" = .ok := by
  refine ⟨fun name t => ?_, by decide, by decide⟩
  unfold delete_project
  split
  · simp [*]
  · simp only [*]
    constructor
    · intro h; cases h
    · intro h; simp_all

/-- C8: `get_workflow_info` reports the flow as not found exactly when the
response fails to parse (a `ValueError` from `extract_json`); a parsable
response passes through (its `error` field, if any, surfaces unmodified), and
an exception from the request itself propagates unmodified. -/
theorem get_workflow_info_not_found_signal :
    (∀ flow t, get_workflow_info flow (.ok (.unparsable t))
      = .error (.azkabanError ("Flow '" ++ flow ++ "' not found.")))
    ∧ (∀ flow fields, alookup "error" fields = none →
        get_workflow_info flow (.ok (.parsable fields)) = .ok fields)
    ∧ (∀ flow fields m, alookup "error" fields = some m →
        get_workflow_info flow (.ok (.parsable fields)) = .error (.azkabanError m))
    ∧ (∀ flow e, get_workflow_info flow (.error e) = .error e) := by
  refine ⟨fun flow t => rfl, fun flow fields h => ?_, fun flow fields m h => ?_,
    fun flow e => rfl⟩
  · simp [get_workflow_info, extract_json, h]
  · simp [get_workflow_info, extract_json, h]

theorem get_workflow_info_not_found_signal_witness :
    get_workflow_info "fl" (.ok (.parsable [("nodes", "x")])) = .ok [("nodes", "x")]
    ∧ get_workflow_info "fl" (.ok (.parsable [("error", "e1")]))
      = .error (.azkabanError "e1") :=
  ⟨get_workflow_info_not_found_signal.2.1 "fl" _ rfl,
   get_workflow_info_not_found_signal.2.2.1 "fl" _ "e1" rfl⟩

/-- C9: precedence in `Job.options` is per flattened key, not per top-level
key: a key bound only by a later dictionary survives an earlier dictionary
sharing its top-level prefix, so `[{a:{b:1}}, {a:{c:2}}]` yields both
`a.b = 1` and `a.c = 2`. -/
theorem job_options_per_flattened_key :
    (∀ (o1 o2 : JObj) (k : String) (v : String),
      alookup k (flatten o1) = none → alookup k (flatten o2) = some v →
      alookup k (jobOptions [o1, o2]) = some v)
    ∧ alookup "a.b" (jobOptions [.dictCons "a" (.leafCons "b" "1" .nil) .nil,
        .dictCons "a" (.leafCons "c" "2" .nil) .nil]) = some "1"
    ∧ alookup "a.c" (jobOptions [.dictCons "a" (.leafCons "b" "1" .nil) .nil,
        .dictCons "a" (.leafCons "c" "2" .nil) .nil]) = some "2" := by
  refine ⟨fun o1 o2 k v h1 h2 => ?_, by decide, by decide⟩
  rw [jobOptions_lookup]
  simp [earliestBinding, h1, h2]

theorem job_options_per_flattened_key_witness :
    alookup "a" (jobOptions [.nil, .leafCons "a" "2" .nil]) = some "2" :=
  job_options_per_flattened_key.1 .nil (.leafCons "a" "2" .nil) "a" "2" rfl rfl

/-- C10: the on-disk existence check in `add_file` runs only on first
registration: an identical re-registration succeeds even on a file system
where the file no longer exists at all. -/
theorem add_file_no_recheck_on_reregister :
    ∀ (files : List (String × Option String)) (path : String) (ap : Option String),
      isabs path = true → alookup path files = some ap →
      add_file (fun _ => false) files path ap = (.ok, files) := by
  intro files path ap h1 h2
  simp [add_file, h1, h2]

theorem add_file_no_recheck_on_reregister_witness :
    add_file (fun _ => false) [("/a/b", some "x")] "/a/b" (some "x")
      = (.ok, [("/a/b", some "x")]) :=
  add_file_no_recheck_on_reregister [("/a/b", some "x")] "/a/b" (some "x") rfl rfl

end Azkaban
